import Mathlib

/-!
Shallow embedding of the assignment-and-propagation core of the
super-simple-sat solver (modules `src/assignment2/mod.rs` and
`src/assignment/model.rs`), together with models of the collaborating
structures whose sources are not part of the repository snapshot
(`trail.rs`, `watch_list.rs`, `utils/bounded_map.rs`,
`utils/bounded_bitmap.rs`, the literal/variable module and the older
`assignment/mod.rs`); those are modelled from the specification and each
carries a doc comment saying so.

Rust `Result` is embedded as `Except Error`; a Rust panic (an `expect` or
a failed `assert!`) is embedded as the `none` of an outer `Option`.
-/

namespace SuperSimpleSat

/-- Recoverable errors of the solver core: exceeding the supported variable
count, an index beyond the current registration, and building a model from
an incomplete assignment. -/
inductive Error where
  | IndeterminateAssignment
  | UsedTooManyVariables
  | VariableIndexOutOfRange
deriving DecidableEq, Repr

/-- A propositional variable: a dense, zero-based index handle
(source type `Variable`). -/
structure Variable where
  index : Nat
deriving DecidableEq, Repr

/-- The two concrete values a variable can be assigned
(source type `VarAssignment`). -/
inductive VarAssignment where
  | True
  | False
deriving DecidableEq, Repr

/-- Converts the assignment value to a boolean (source `VarAssignment::to_bool`). -/
def VarAssignment.to_bool : VarAssignment → Bool
  | .True => true
  | .False => false

/-- Modelled from the spec: a literal is a variable plus a polarity
(the literal module is not in src/); positive polarity asserts the
variable true. -/
structure Literal where
  var : Variable
  polarity : Bool
deriving DecidableEq, Repr

/-- Modelled from the spec: a positive literal seeks its variable true. -/
def Literal.is_positive (l : Literal) : Bool := l.polarity

/-- Modelled from the spec: a negative literal seeks its variable false. -/
def Literal.is_negative (l : Literal) : Bool := !l.polarity

/-- Modelled from the spec: the variable assignment that makes this literal true. -/
def Literal.assignment (l : Literal) : VarAssignment :=
  if l.polarity then .True else .False

/-- Modelled from the spec: the complementary literal (same variable,
opposite polarity). -/
def Literal.negate (l : Literal) : Literal := ⟨l.var, !l.polarity⟩

/-- Modelled from the spec: the implementation-defined maximum representable
index that bounds every per-variable structure's growth. -/
def maxVariables : Nat := 2 ^ 32

/-- Modelled from the spec: the bounded indexed container's map variant
(`utils/bounded_map.rs` is not in src/): a dense, growable store of optional
values, keyed by index below the current capacity; absence is structural. -/
structure BoundedMap (V : Type) where
  slots : List (Option V)
deriving DecidableEq, Repr

variable {V : Type}

/-- Modelled from the spec: current capacity of the map (how many indices are valid). -/
def BoundedMap.capacity (m : BoundedMap V) : Nat := m.slots.length

/-- Modelled from the spec: number of values currently stored (the source uses
this as the number of assigned variables, see `len_assigned`). -/
def BoundedMap.len (m : BoundedMap V) : Nat := m.slots.countP Option.isSome

/-- Modelled from the spec: grow the capacity to at least the given total,
failing with a capacity error when the total exceeds the maximum
representable index; on failure the map is untouched. -/
def BoundedMap.increase_capacity_to (m : BoundedMap V) (n : Nat) :
    Except Error (BoundedMap V) :=
  if maxVariables < n then .error .UsedTooManyVariables
  else .ok ⟨m.slots ++ List.replicate (n - m.slots.length) none⟩

/-- Modelled from the spec: bounds-checked read, out-of-range for an index at
or above the capacity. -/
def BoundedMap.get (m : BoundedMap V) (i : Nat) : Except Error (Option V) :=
  match m.slots[i]? with
  | some v => .ok v
  | none => .error .VariableIndexOutOfRange

/-- Modelled from the spec: bounds-checked insert returning the previous
value at the index. -/
def BoundedMap.insert (m : BoundedMap V) (i : Nat) (v : V) :
    Except Error (Option V × BoundedMap V) :=
  match m.slots[i]? with
  | some old => .ok (old, ⟨m.slots.set i (some v)⟩)
  | none => .error .VariableIndexOutOfRange

/-- Modelled from the spec: bounds-checked removal returning the previous
value at the index. -/
def BoundedMap.take (m : BoundedMap V) (i : Nat) :
    Except Error (Option V × BoundedMap V) :=
  match m.slots[i]? with
  | some old => .ok (old, ⟨m.slots.set i none⟩)
  | none => .error .VariableIndexOutOfRange

/-- The actual variable assignment (source `VariableAssignment`). -/
structure VariableAssignment where
  assignment : BoundedMap VarAssignment
deriving DecidableEq, Repr

/-- Number of assigned variables (source `VariableAssignment::len_assigned`). -/
def VariableAssignment.len_assigned (va : VariableAssignment) : Nat :=
  va.assignment.len

/-- Registers additional variables (source
`VariableAssignment::register_new_variables`): grows the map's capacity to
`self.assignment.len() + new_variables`, exactly as the source computes it. -/
def VariableAssignment.register_new_variables (va : VariableAssignment)
    (new_variables : Nat) : Except Error VariableAssignment :=
  (va.assignment.increase_capacity_to (va.assignment.len + new_variables)).map
    (fun m => ⟨m⟩)

/-- Returns the assignment of the variable (source `VariableAssignment::get`);
the source panics on an invalid variable, embedded as the outer `none`. -/
def VariableAssignment.get (va : VariableAssignment) (v : Variable) :
    Option (Option VarAssignment) :=
  match va.assignment.get v.index with
  | .ok o => some o
  | .error _ => none

/-- Whether the literal is satisfied (source `VariableAssignment::is_satisfied`);
an unassigned variable yields the indeterminate inner `none`, an invalid
variable the outer `none` (panic). -/
def VariableAssignment.is_satisfied (va : VariableAssignment) (l : Literal) :
    Option (Option Bool) :=
  (va.get l.var).map (fun o =>
    o.map (fun a => (l.is_positive && a.to_bool) || (l.is_negative && !a.to_bool)))

/-- Updates the assignment of the variable (source `VariableAssignment::assign`);
panics (outer `none`) when the variable is invalid or was already assigned. -/
def VariableAssignment.assign (va : VariableAssignment) (v : Variable)
    (a : VarAssignment) : Option VariableAssignment :=
  match va.assignment.insert v.index a with
  | .error _ => none
  | .ok (old, m) => if old.isNone then some ⟨m⟩ else none

/-- Unassigns the variable (source `VariableAssignment::unassign`); panics
(outer `none`) when the variable is invalid or was already unassigned. -/
def VariableAssignment.unassign (va : VariableAssignment) (v : Variable) :
    Option VariableAssignment :=
  match va.assignment.take v.index with
  | .error _ => none
  | .ok (old, m) => if old.isSome then some ⟨m⟩ else none

/-- Errors on enqueuing a literal to the propagation queue
(source `EnqueueError`). -/
inductive EnqueueError where
  | AlreadySatisfied
  | Conflict
deriving DecidableEq, Repr

/-- The FIFO propagation queue (source `PropagationQueue`); the head of the
list is the front of the queue. -/
structure PropagationQueue where
  queue : List Literal
deriving DecidableEq, Repr

/-- Outcome of `PropagationQueue.push`: success, a rejection (carrying the
queue as the call leaves it), or the source's panic on an invalid variable. -/
inductive PushResult where
  | ok (queue : PropagationQueue)
  | err (e : EnqueueError) (queue : PropagationQueue)
  | invalid
deriving DecidableEq, Repr

/-- Pushes a literal to the propagation queue (source `PropagationQueue::push`):
a variable already `True` is rejected as `AlreadySatisfied` with the queue
unchanged, a variable already `False` clears the queue and is rejected as
`Conflict`, an unassigned variable is enqueued at the back. -/
def PropagationQueue.push (q : PropagationQueue) (literal : Literal)
    (assignment : VariableAssignment) : PushResult :=
  match assignment.get literal.var with
  | none => .invalid
  | some (some .True) => .err .AlreadySatisfied q
  | some (some .False) => .err .Conflict ⟨[]⟩
  | some none => .ok ⟨q.queue ++ [literal]⟩

/-- Pops the next propagation literal from the front (source
`PropagationQueue::pop`). -/
def PropagationQueue.pop (q : PropagationQueue) : Option (Literal × PropagationQueue) :=
  match q.queue with
  | [] => none
  | l :: rest => some (l, ⟨rest⟩)

/-- Repeatedly popping the queue (at most `fuel` times), listing the
literals in the order `pop` returns them. -/
def PropagationQueue.drain (fuel : Nat) (q : PropagationQueue) : List Literal :=
  match fuel with
  | 0 => []
  | Nat.succ f =>
    match q.pop with
    | none => []
    | some (l, q2) => l :: q2.drain f

/-- Pushes the literals of a list one after the other, stopping at the
first push that does not succeed. -/
def PropagationQueue.pushAll (q : PropagationQueue) (ls : List Literal)
    (va : VariableAssignment) : PushResult :=
  match ls with
  | [] => .ok q
  | l :: rest =>
    match q.push l va with
    | .ok q2 => q2.pushAll rest va
    | r => r

/-- Modelled from the spec: the decision trail (`trail.rs` is not in src/):
an append-only chronological log of (literal, decision level) pairs, the
current decision level, and the per-variable bookkeeping capacity. -/
structure Trail where
  entries : List (Literal × Nat)
  current_level : Nat
  registered : Nat
deriving DecidableEq, Repr

/-- Modelled from the spec: grows the trail's level-indexed bookkeeping to
cover the given number of additional variables, failing past the maximum. -/
def Trail.register_new_variables (t : Trail) (n : Nat) : Except Error Trail :=
  if maxVariables < t.registered + n then .error .UsedTooManyVariables
  else .ok { t with registered := t.registered + n }

/-- Modelled from the spec: removes every trail entry whose level exceeds the
given level, reporting the removed literals most-recently-added first (the
order the undo callback receives them); entries at or below the level are
untouched and the current level becomes the given level. -/
def Trail.pop_to_level (t : Trail) (level : Nat) : Trail × List Literal :=
  ({ entries := t.entries.filter (fun e => decide (e.2 ≤ level)),
     current_level := level,
     registered := t.registered },
   ((t.entries.filter (fun e => decide (level < e.2))).reverse).map Prod.fst)

/-- Modelled from the spec: a clause of the external clause database exposes
an id and its ordered sequence of literals. -/
structure Clause where
  id : Nat
  lits : List Literal
deriving DecidableEq, Repr

/-- Modelled from the spec: the external clause database, supporting clause
lookup by id and iteration over a clause's literals. -/
abbrev ClauseDb := List Clause

/-- Modelled from the spec: clause identity lookup in the database. -/
def ClauseDb.resolve (db : ClauseDb) (i : Nat) : Option Clause :=
  db.find? (fun c => decide (c.id = i))

/-- Result of propagation (source `PropagationResult`). -/
inductive PropagationResult where
  | Consistent
  | Conflict
deriving DecidableEq, Repr

/-- Modelled from the spec: the watch list (`watch_list.rs` is not in src/):
the clause ids watching each literal, kept as an ordered list of
(literal, clause id) associations, plus the covered variable total. -/
structure WatchList where
  registered_vars : Nat
  watchers : List (Literal × Nat)
deriving DecidableEq, Repr

/-- Modelled from the spec: grows the watch storage to cover the new total
literal space, failing past the maximum. -/
def WatchList.register_new_variables (w : WatchList) (total : Nat) :
    Except Error WatchList :=
  if maxVariables < total then .error .UsedTooManyVariables
  else .ok { w with registered_vars := max w.registered_vars total }

/-- Attaches a clause to a literal's watch set (source
`WatchList::register_for_lit`, modelled from the spec). -/
def WatchList.register_for_lit (w : WatchList) (literal : Literal)
    (clause_id : Nat) : WatchList :=
  { w with watchers := w.watchers ++ [(literal, clause_id)] }

/-- What watch-list propagation decides to do with one clause that watches
the now-false literal. -/
inductive ClauseAction where
  | keep
  | move (l : Literal)
  | enqueue (l : Literal)
  | conflict
deriving DecidableEq, Repr

/-- Modelled from the spec: scan one clause watching the now-false literal:
keep the watch when some literal of the clause is already satisfied;
otherwise move the watch to a non-false literal outside the currently
watched ones; otherwise, when the clause holds exactly one unassigned
literal, enqueue it as forced; otherwise report conflict. The outer `none`
is the panic on an unregistered variable. -/
def scan_watched_clause (asg : VariableAssignment) (watched : List Literal)
    (c : Clause) : Option ClauseAction := do
  let vals ← c.lits.mapM (fun l => (asg.is_satisfied l).map (fun s => (l, s)))
  if vals.any (fun p => decide (p.2 = some true)) then
    pure .keep
  else
    match vals.find? (fun p => decide (p.1 ∉ watched) && decide (p.2 ≠ some false)) with
    | some p => pure (.move p.1)
    | none =>
      match vals.filter (fun p => decide (p.2 = none)) with
      | [u] => pure (.enqueue u.1)
      | _ => pure .conflict

/-- Modelled from the spec: process the clause ids watching the now-false
literal `neg` one by one, accumulating the watch entries that stay or move
and the propagation queue; a conflict aborts immediately, leaving the
pending entries' watch updates unapplied. -/
def watch_propagate_go (asg : VariableAssignment) (db : ClauseDb) (neg : Literal)
    (rv : Nat) (others : List (Literal × Nat)) (watched_of : Nat → List Literal) :
    List Nat → List (Literal × Nat) → PropagationQueue →
    Option (PropagationResult × WatchList × PropagationQueue)
  | [], acc, q => some (.Consistent, ⟨rv, others ++ acc⟩, q)
  | cid :: rest, acc, q =>
    match db.resolve cid with
    | none => none
    | some c =>
      match scan_watched_clause asg (watched_of cid) c with
      | none => none
      | some .keep =>
        watch_propagate_go asg db neg rv others watched_of rest (acc ++ [(neg, cid)]) q
      | some (.move l) =>
        watch_propagate_go asg db neg rv others watched_of rest (acc ++ [(l, cid)]) q
      | some (.enqueue l) =>
        match q.push l asg with
        | .ok q2 =>
          watch_propagate_go asg db neg rv others watched_of rest (acc ++ [(neg, cid)]) q2
        | .err .AlreadySatisfied q2 =>
          watch_propagate_go asg db neg rv others watched_of rest (acc ++ [(neg, cid)]) q2
        | .err .Conflict q2 =>
          some (.Conflict,
            ⟨rv, others ++ acc ++ (cid :: rest).map (fun i => (neg, i))⟩, q2)
        | .invalid => none
      | some .conflict =>
        some (.Conflict,
          ⟨rv, others ++ acc ++ (cid :: rest).map (fun i => (neg, i))⟩, q)

/-- Modelled from the spec: called right after `literal` became true, scans
every clause watching the complementary (now false) literal, moving watches,
enqueuing forced literals through the queue, or reporting a conflict. -/
def WatchList.propagate (w : WatchList) (literal : Literal) (db : ClauseDb)
    (asg : VariableAssignment) (q : PropagationQueue) :
    Option (PropagationResult × WatchList × PropagationQueue) :=
  let neg := literal.negate
  watch_propagate_go asg db neg w.registered_vars
    (w.watchers.filter (fun e => decide (e.1 ≠ neg)))
    (fun cid => (w.watchers.filter (fun e => decide (e.2 = cid))).map Prod.fst)
    ((w.watchers.filter (fun e => decide (e.1 = neg))).map Prod.snd)
    [] q

/-- The database combining everything related to variable assignment
(source `Assignment`). -/
structure Assignment where
  num_variables : Nat
  trail : Trail
  assignments : VariableAssignment
  watchers : WatchList
  propagation_queue : PropagationQueue
deriving DecidableEq, Repr

/-- The default (freshly created) assignment with no variables registered. -/
def Assignment.initial : Assignment :=
  ⟨0, ⟨[], 0, 0⟩, ⟨⟨[]⟩⟩, ⟨0, []⟩, ⟨[]⟩⟩

/-- Initializes the watchers for a clause (source
`Assignment::initialize_watchers`): registers the clause's first two
literals, in clause order, for the clause's id; the source returns unit,
reporting no error. -/
def Assignment.initialize_watchers (a : Assignment) (clause : Clause) : Assignment :=
  let w :=
    (clause.lits.take 2).foldl (fun w l => w.register_for_lit l clause.id) a.watchers
  { a with watchers := w }

/-- The current number of variables (source `Assignment::len_variables`). -/
def Assignment.len_variables (a : Assignment) : Nat := a.num_variables

/-- The number of currently assigned variables (source
`Assignment::assigned_variables`). -/
def Assignment.assigned_variables (a : Assignment) : Nat :=
  a.assignments.len_assigned

/-- Whether the assignment is complete (source `Assignment::is_complete`). -/
def Assignment.is_complete (a : Assignment) : Bool :=
  decide (a.len_variables = a.assigned_variables)

/-- Registers additional variables (source
`Assignment::register_new_variables`): grows the trail, the variable
assignment and the watch list, then advances the tracked total. -/
def Assignment.register_new_variables (a : Assignment) (new_variables : Nat) :
    Except Error Assignment := do
  let total_variables := a.len_variables + new_variables
  let t ← a.trail.register_new_variables new_variables
  let asg ← a.assignments.register_new_variables new_variables
  let w ← a.watchers.register_new_variables total_variables
  pure { a with trail := t, assignments := asg, watchers := w,
                num_variables := a.num_variables + new_variables }

/-- Resets the assignment to the given decision level (source
`Assignment::reset_to_level`): pops the trail, unassigning each reverted
variable; the `none` is the panic of a double unassignment or an invalid
variable inside the undo callback. -/
def Assignment.reset_to_level (a : Assignment) (level : Nat) : Option Assignment :=
  let p := a.trail.pop_to_level level
  (p.2.foldlM (fun asg l => VariableAssignment.unassign asg l.var) a.assignments).map
    (fun asg => { a with trail := p.1, assignments := asg })

/-- Enqueues a propagation literal without yet mutating the assignment
(source `Assignment::enqueue_assumption`): `none` for a rejected literal is
the admission error, the outer `none` the panic on an invalid variable. -/
def Assignment.enqueue_assumption (a : Assignment) (assumption : Literal) :
    Option (Option EnqueueError × Assignment) :=
  match a.propagation_queue.push assumption a.assignments with
  | .ok q => some (none, { a with propagation_queue := q })
  | .err e q => some (some e, { a with propagation_queue := q })
  | .invalid => none

/-- One iteration of the propagation loop either ends the loop with a result
or continues from the next state. -/
inductive StepOutcome where
  | done (result : PropagationResult) (state : Assignment)
  | next (state : Assignment)
deriving DecidableEq, Repr

/-- One iteration of the `while` loop of `Assignment::propagate`: pop a
literal, commit it to the variable assignment, and let the watch list
process the consequences; `none` embeds a panic (double assignment or
invalid variable). -/
def Assignment.propagate_step (a : Assignment) (db : ClauseDb) : Option StepOutcome :=
  match a.propagation_queue.pop with
  | none => some (.done .Consistent a)
  | some (lit, q1) =>
    match a.assignments.assign lit.var lit.assignment with
    | none => none
    | some asg =>
      match a.watchers.propagate lit db asg q1 with
      | none => none
      | some (res, w, q2) =>
        let a2 := { a with assignments := asg, watchers := w,
                           propagation_queue := q2 }
        match res with
        | .Conflict => some (.done .Conflict a2)
        | .Consistent => some (.next a2)

/-- Propagates the enqueued assumptions (source `Assignment::propagate`),
written with explicit fuel for the loop; `none` is a panic or fuel
exhaustion. -/
def Assignment.propagate (a : Assignment) (db : ClauseDb) (fuel : Nat) :
    Option (PropagationResult × Assignment) :=
  match fuel with
  | 0 => none
  | Nat.succ f =>
    match a.propagate_step db with
    | none => none
    | some (.done r a2) => some (r, a2)
    | some (.next a2) => a2.propagate db f

/-- Modelled from the spec: the bitmap-specialized bounded container
(`utils/bounded_bitmap.rs` is not in src/): packs one two-valued entry per
index; growth pads with a default value and keeps the container untouched
on a capacity failure; get and set are bounds-checked. -/
structure BoundedBitmap where
  data : List VarAssignment
deriving DecidableEq, Repr

/-- Modelled from the spec: the number of entries the bitmap currently holds. -/
def BoundedBitmap.len (b : BoundedBitmap) : Nat := b.data.length

/-- Modelled from the spec: grow the bitmap to at least the given length,
failing with a capacity error past the maximum representable index. -/
def BoundedBitmap.increase_len (b : BoundedBitmap) (n : Nat) :
    Except Error BoundedBitmap :=
  if maxVariables < n then .error .UsedTooManyVariables
  else .ok ⟨b.data ++ List.replicate (n - b.data.length) .False⟩

/-- Modelled from the spec: bounds-checked write into the bitmap. -/
def BoundedBitmap.set (b : BoundedBitmap) (i : Nat) (v : VarAssignment) :
    Except Error BoundedBitmap :=
  if i < b.data.length then .ok ⟨b.data.set i v⟩
  else .error .VariableIndexOutOfRange

/-- Modelled from the spec: bounds-checked read from the bitmap. -/
def BoundedBitmap.get (b : BoundedBitmap) (i : Nat) : Except Error VarAssignment :=
  match b.data[i]? with
  | some v => .ok v
  | none => .error .VariableIndexOutOfRange

/-- An immutable model of a complete assignment (source `Model` in
`assignment/model.rs`). -/
structure Model where
  assignment : BoundedBitmap
deriving DecidableEq, Repr

/-- Modelled from the spec: the view of the older assignment module that
`Model::from_reuse` consumes (`assignment/mod.rs` is not in src/): one
optional value per registered variable, complete when every registered
variable holds a concrete value, iterated in index order. -/
structure OldAssignment where
  values : List (Option VarAssignment)
deriving DecidableEq, Repr

/-- Modelled from the spec: the number of registered variables of the older
assignment module. -/
def OldAssignment.len_variables (a : OldAssignment) : Nat := a.values.length

/-- Modelled from the spec: whether every registered variable holds a
concrete value. -/
def OldAssignment.is_assignment_complete (a : OldAssignment) : Bool :=
  a.values.all Option.isSome

/-- Pairs each list entry with its index, starting from `start`: the order
the older assignment module's iterator yields (variable, value) pairs. -/
def index_pairs (start : Nat) : List (Option VarAssignment) →
    List (Nat × Option VarAssignment)
  | [] => []
  | v :: rest => (start, v) :: index_pairs (start + 1) rest

/-- The copy loop of `Model::from_reuse`: writes each (index, value) pair
into the model's bitmap; a `set` failure stops with an out-of-range error,
leaving the writes made so far in place; an absent value is the source's
panic (`none`). The second component of the result is the error, `none` on
success. -/
def model_copy_loop : List (Nat × Option VarAssignment) → Model →
    Option (Model × Option Error)
  | [], m => some (m, none)
  | (i, v) :: rest, m =>
    match v with
    | none => none
    | some x =>
      match m.assignment.set i x with
      | .error _ => some (m, some .VariableIndexOutOfRange)
      | .ok b => model_copy_loop rest ⟨b⟩

/-- Fills the model from a complete assignment (source `Model::from_reuse`):
rejects an incomplete assignment as indeterminate, grows the bitmap to the
assignment's variable count, then copies every value in. The result carries
the model as the call leaves it and the error if any; the outer `none` is a
panic. -/
def Model.from_reuse (m : Model) (a : OldAssignment) : Option (Model × Option Error) :=
  if a.is_assignment_complete = false then
    some (m, some .IndeterminateAssignment)
  else
    match m.assignment.increase_len a.len_variables with
    | .error _ => some (m, some .UsedTooManyVariables)
    | .ok b => model_copy_loop (index_pairs 0 a.values) ⟨b⟩

/-- Whether a literal is satisfied under the model (source
`Model::is_satisfied`). -/
def Model.is_satisfied (m : Model) (l : Literal) : Except Error Bool :=
  (m.assignment.get l.var.index).map (fun a =>
    (l.is_positive && a.to_bool) || (l.is_negative && !a.to_bool))

/-- The positive literal over variable 0. -/
def lit0 : Literal := ⟨⟨0⟩, true⟩

/-- The negative literal over variable 1. -/
def lit1 : Literal := ⟨⟨1⟩, false⟩

/-- The state reached from the fresh assignment by two calls of
`register_new_variables 1`. -/
def two_registrations_state : Except Error Assignment :=
  (Assignment.initial.register_new_variables 1).bind
    (fun a => a.register_new_variables 1)

/-- The state reached from the fresh assignment by registering one variable,
enqueuing the positive literal over it twice (both pushes are admitted: the
variable is still unassigned), and running one iteration of the propagation
loop against an empty clause database. -/
def duplicate_enqueue_state : Option Assignment := do
  let a0 ← (Assignment.initial.register_new_variables 1).toOption
  let p1 ← a0.enqueue_assumption lit0
  let p2 ← p1.2.enqueue_assumption lit0
  match p2.2.propagate_step [] with
  | some (.next a3) => some a3
  | _ => none

/-! ## Helper lemmas -/

/-- Reading a variable through the bounds-checked map is exactly the
optional lookup into the dense slot list: the panic (`none`) is the
out-of-range index. -/
lemma VariableAssignment.get_eq (va : VariableAssignment) (v : Variable) :
    va.get v = va.assignment.slots[v.index]? := by
  simp only [VariableAssignment.get, BoundedMap.get]
  cases va.assignment.slots[v.index]? <;> rfl

/-- Assigning a registered, unassigned variable succeeds, makes `get` return
the new value, and leaves every other variable's read unchanged. -/
lemma VariableAssignment.assign_spec (va : VariableAssignment) (v : Variable)
    (x : VarAssignment) (h : va.get v = some none) :
    ∃ va2, va.assign v x = some va2 ∧ va2.get v = some (some x) ∧
      ∀ w : Variable, w.index ≠ v.index → va2.get w = va.get w := by
  rw [VariableAssignment.get_eq] at h
  have hlt : v.index < va.assignment.slots.length := (List.getElem?_eq_some.mp h).1
  refine ⟨⟨⟨va.assignment.slots.set v.index (some x)⟩⟩, ?_, ?_, ?_⟩
  · unfold VariableAssignment.assign BoundedMap.insert
    rw [h]
    rfl
  · rw [VariableAssignment.get_eq]
    exact List.getElem?_set_self hlt
  · intro w hw
    rw [VariableAssignment.get_eq, VariableAssignment.get_eq]
    exact List.getElem?_set_ne (Ne.symm hw)

/-- Unassigning a registered, assigned variable succeeds, makes `get` return
the absent value, and leaves every other variable's read unchanged. -/
lemma VariableAssignment.unassign_spec (va : VariableAssignment) (v : Variable)
    (x : VarAssignment) (h : va.get v = some (some x)) :
    ∃ va2, va.unassign v = some va2 ∧ va2.get v = some none ∧
      ∀ w : Variable, w.index ≠ v.index → va2.get w = va.get w := by
  rw [VariableAssignment.get_eq] at h
  have hlt : v.index < va.assignment.slots.length := (List.getElem?_eq_some.mp h).1
  refine ⟨⟨⟨va.assignment.slots.set v.index none⟩⟩, ?_, ?_, ?_⟩
  · unfold VariableAssignment.unassign BoundedMap.take
    rw [h]
    rfl
  · rw [VariableAssignment.get_eq]
    exact List.getElem?_set_self hlt
  · intro w hw
    rw [VariableAssignment.get_eq, VariableAssignment.get_eq]
    exact List.getElem?_set_ne (Ne.symm hw)

/-! ## The claims -/

/-- C1: the claim says that after any sequence of
`Assignment::register_new_variables (n_i)` calls the tracked total equals
the sum of the `n_i` and every variable index below that total is queryable
through `VariableAssignment::get`. The code computes each growth target
from the number of currently assigned variables instead of the registered
capacity, so after `register_new_variables 1` twice the tracked total is
`2 = 1 + 1` but the capacity stays `1`: querying variable `1`, which lies
below the total, hits the source's invalid-variable panic (the `none`),
while variable `0` is still readable. -/
theorem c1_variable_below_total_not_queryable :
    two_registrations_state.map
      (fun a => (a.num_variables, a.assignments.get ⟨1⟩, a.assignments.get ⟨0⟩))
      = .ok (2, none, some none) := by
  rfl

/-- C2: the claim says that after every `Assignment::register_new_variables`
call the trail, the variable assignment and the watch list agree on the new
total variable count. After two `register_new_variables 1` calls the trail
and watch list cover `2` variables and the tracked total is `2`, but the
variable assignment's capacity is still `1`: the per-variable structures
disagree on the registered length. -/
theorem c2_structures_disagree_on_length :
    two_registrations_state.map
      (fun a => (a.num_variables, a.trail.registered,
                 a.watchers.registered_vars, a.assignments.assignment.capacity))
      = .ok (2, 2, 2, 1) := by
  rfl

/-- C3 (counterexample): the claim says the propagation queue never holds a
literal whose variable is already assigned, at every point of any sequence
of `enqueue_assumption` and `propagate` operations. Enqueuing the same
unassigned literal twice is admitted both times, and after the first
iteration of the propagation loop commits it, the queue still holds the
duplicate while its variable is assigned `True`: the invariant fails. -/
theorem c3_queue_holds_assigned_variable :
    duplicate_enqueue_state.map
      (fun a => (a.propagation_queue.queue, a.assignments.get ⟨0⟩))
      = some ([lit0], some (some .True)) := by
  rfl

/-- C3 (amended): admission is checked against the current assignment at
push time, so a push succeeds only when the literal's variable is
unassigned at that moment, appending the literal at the back; the queue may
still come to hold a literal whose variable got assigned after the push. -/
theorem c3_push_checks_assignment_at_push_time (q q2 : PropagationQueue)
    (l : Literal) (va : VariableAssignment) (h : q.push l va = .ok q2) :
    va.get l.var = some none ∧ q2 = ⟨q.queue ++ [l]⟩ := by
  unfold PropagationQueue.push at h
  cases hg : va.get l.var with
  | none => rw [hg] at h; simp at h
  | some o =>
    cases o with
    | none =>
      rw [hg] at h
      cases h
      exact ⟨rfl, rfl⟩
    | some x =>
      cases x <;> rw [hg] at h <;> simp at h

/-- C3 (amended, witness): pushing the positive literal over the unassigned
variable 0 into the empty queue is admitted and appends it. -/
theorem c3_push_witness :
    (⟨⟨[none]⟩⟩ : VariableAssignment).get lit0.var = some none ∧
      (⟨[lit0]⟩ : PropagationQueue) = ⟨([] : List Literal) ++ [lit0]⟩ :=
  c3_push_checks_assignment_at_push_time ⟨[]⟩ ⟨[lit0]⟩ lit0 ⟨⟨[none]⟩⟩ (by rfl)

/-- C5: `PropagationQueue::push` is a three-way case split on the current
assignment of the literal's variable: a variable already `True` is rejected
as `AlreadySatisfied` with the queue unchanged, a variable already `False`
is rejected as `Conflict` with the whole queue cleared (whatever it held),
and an unassigned variable is enqueued at the back successfully. -/
theorem c5_push_three_way_split (q : PropagationQueue) (l : Literal)
    (va : VariableAssignment) (v : Option VarAssignment)
    (h : va.get l.var = some v) :
    q.push l va =
      match v with
      | some .True => .err .AlreadySatisfied q
      | some .False => .err .Conflict ⟨[]⟩
      | none => .ok ⟨q.queue ++ [l]⟩ := by
  cases v with
  | none => simp [PropagationQueue.push, h]
  | some x => cases x <;> simp [PropagationQueue.push, h]

/-- C5 (witness): pushing a literal whose variable is already `False` onto a
non-empty queue reports the conflict and leaves the queue empty. -/
theorem c5_push_witness :
    (⟨[lit0]⟩ : PropagationQueue).push lit1 ⟨⟨[some .True, some .False]⟩⟩
      = .err .Conflict ⟨[]⟩ :=
  c5_push_three_way_split ⟨[lit0]⟩ lit1 ⟨⟨[some .True, some .False]⟩⟩
    (some .False) (by rfl)

/-- C7: on a registered, currently unassigned variable, `assign` followed by
`get` returns the assigned value; on a registered, currently assigned
variable, `unassign` followed by `get` returns the absent value; neither
call panics under these preconditions. -/
theorem c7_assign_get_unassign_get (va : VariableAssignment) (v : Variable)
    (x : VarAssignment) :
    (va.get v = some none →
      ∃ va2, va.assign v x = some va2 ∧ va2.get v = some (some x)) ∧
    (∀ y, va.get v = some (some y) →
      ∃ va2, va.unassign v = some va2 ∧ va2.get v = some none) := by
  constructor
  · intro h
    obtain ⟨va2, h1, h2, _⟩ := va.assign_spec v x h
    exact ⟨va2, h1, h2⟩
  · intro y h
    obtain ⟨va2, h1, h2, _⟩ := va.unassign_spec v y h
    exact ⟨va2, h1, h2⟩

/-- C7 (witness): assigning the unassigned variable 0 and reading it back,
and unassigning the assigned variable 0 and reading it back. -/
theorem c7_witness :
    (∃ va2, (⟨⟨[none]⟩⟩ : VariableAssignment).assign ⟨0⟩ .True = some va2 ∧
      va2.get ⟨0⟩ = some (some .True)) ∧
    (∃ va2, (⟨⟨[some .True]⟩⟩ : VariableAssignment).unassign ⟨0⟩ = some va2 ∧
      va2.get ⟨0⟩ = some none) :=
  ⟨(c7_assign_get_unassign_get ⟨⟨[none]⟩⟩ ⟨0⟩ .True).1 (by rfl),
   (c7_assign_get_unassign_get ⟨⟨[some .True]⟩⟩ ⟨0⟩ .True).2 .True (by rfl)⟩

/-- Draining a queue with enough fuel returns exactly its literal list, front
first. -/
lemma drain_eq_of_le (l : List Literal) :
    ∀ fuel, l.length ≤ fuel → PropagationQueue.drain fuel ⟨l⟩ = l := by
  induction l with
  | nil => intro fuel hf; cases fuel <;> rfl
  | cons a rest ih =>
    intro fuel hf
    cases fuel with
    | zero => simp at hf
    | succ f =>
      have hr : rest.length ≤ f := by simpa using hf
      show a :: PropagationQueue.drain f ⟨rest⟩ = a :: rest
      rw [ih f hr]

/-- Pushing a list of literals of unassigned variables succeeds and appends
them, in order, at the back of the queue. -/
lemma pushAll_unassigned (va : VariableAssignment) :
    ∀ (ls : List Literal) (q : PropagationQueue),
      (∀ l ∈ ls, va.get l.var = some none) →
      q.pushAll ls va = .ok ⟨q.queue ++ ls⟩ := by
  intro ls
  induction ls with
  | nil =>
    intro q h
    show PushResult.ok q = PushResult.ok ⟨q.queue ++ []⟩
    rw [List.append_nil]
  | cons a rest ih =>
    intro q h
    have ha : va.get a.var = some none := h a (List.mem_cons_self a rest)
    have hpush : q.push a va = .ok ⟨q.queue ++ [a]⟩ := by
      simp [PropagationQueue.push, ha]
    have h2 := ih ⟨q.queue ++ [a]⟩ (fun l hl => h l (List.mem_cons_of_mem a hl))
    simp only [PropagationQueue.pushAll, hpush]
    rw [h2]
    simp

/-- C8: pushing literals of distinct unassigned variables enqueues exactly
one entry per push, and popping returns them in exactly the order they were
pushed (FIFO). -/
theorem c8_fifo_order (va : VariableAssignment) (q : PropagationQueue)
    (ls : List Literal)
    (h : ∀ l ∈ ls, va.get l.var = some none)
    (hdistinct : (ls.map (fun l => l.var)).Nodup) :
    q.pushAll ls va = .ok ⟨q.queue ++ ls⟩ ∧
      PropagationQueue.drain (q.queue ++ ls).length ⟨q.queue ++ ls⟩
        = q.queue ++ ls :=
  ⟨pushAll_unassigned va ls q h, drain_eq_of_le (q.queue ++ ls) _ le_rfl⟩

/-- C8 (witness): pushing two literals over the distinct unassigned
variables 0 and 1 into the empty queue and draining them back in order. -/
theorem c8_witness :
    (⟨[]⟩ : PropagationQueue).pushAll [lit0, lit1] ⟨⟨[none, none]⟩⟩
        = .ok ⟨([] : List Literal) ++ [lit0, lit1]⟩ ∧
      PropagationQueue.drain (([] : List Literal) ++ [lit0, lit1]).length
          ⟨([] : List Literal) ++ [lit0, lit1]⟩
        = ([] : List Literal) ++ [lit0, lit1] :=
  c8_fifo_order ⟨⟨[none, none]⟩⟩ ⟨[]⟩ [lit0, lit1] (by decide) (by decide)

/-- C9: running the propagation loop with an empty propagation queue returns
`Consistent` and leaves the whole assignment state unchanged. -/
theorem c9_propagate_empty_queue (a : Assignment) (db : ClauseDb) (fuel : Nat)
    (h : a.propagation_queue.queue = []) :
    a.propagate db (fuel + 1) = some (.Consistent, a) := by
  have hpop : a.propagation_queue.pop = none := by
    simp [PropagationQueue.pop, h]
  simp [Assignment.propagate, Assignment.propagate_step, hpop]

/-- C9 (witness): propagation from the fresh assignment with an empty clause
database returns `Consistent` and the state itself. -/
theorem c9_witness :
    Assignment.initial.propagate [] 1 = some (.Consistent, Assignment.initial) :=
  c9_propagate_empty_queue Assignment.initial [] 0 (by rfl)

/-- Registering several literals for one clause appends one watch entry per
literal, in order, and leaves the covered variable total unchanged. -/
lemma foldl_register_for_lit (cid : Nat) :
    ∀ (ls : List Literal) (w : WatchList),
      (ls.foldl (fun w l => w.register_for_lit l cid) w).watchers
          = w.watchers ++ ls.map (fun l => (l, cid)) ∧
      (ls.foldl (fun w l => w.register_for_lit l cid) w).registered_vars
          = w.registered_vars := by
  intro ls
  induction ls with
  | nil => intro w; simp
  | cons a rest ih =>
    intro w
    simp only [List.foldl_cons, List.map_cons]
    obtain ⟨h1, h2⟩ := ih (w.register_for_lit a cid)
    refine ⟨?_, ?_⟩
    · rw [h1]; simp [WatchList.register_for_lit]
    · rw [h2]; rfl

/-- C10: `initialize_watchers` registers exactly `min 2 (number of
literals)` watch entries — the clause's first one or two literals in clause
order, each associated with the clause's id — and reports no error (the
operation is total); a 1-literal clause gets exactly one entry. -/
theorem c10_initialize_watchers_first_two (a : Assignment) (c : Clause) :
    (a.initialize_watchers c).watchers.watchers
        = a.watchers.watchers ++ (c.lits.take 2).map (fun l => (l, c.id)) ∧
      ((c.lits.take 2).map (fun l => (l, c.id))).length = min 2 c.lits.length ∧
      (a.initialize_watchers c).watchers.registered_vars
        = a.watchers.registered_vars := by
  refine ⟨?_, ?_, ?_⟩
  · simp only [Assignment.initialize_watchers]
    exact (foldl_register_for_lit c.id (c.lits.take 2) a.watchers).1
  · simp [List.length_take]
  · simp only [Assignment.initialize_watchers]
    exact (foldl_register_for_lit c.id (c.lits.take 2) a.watchers).2

/-- Every pair produced by `index_pairs` has an index below `start` plus the
list length and a value from the list. -/
lemma mem_index_pairs : ∀ (l : List (Option VarAssignment)) (s : Nat)
    (p : Nat × Option VarAssignment),
    p ∈ index_pairs s l → p.1 < s + l.length ∧ p.2 ∈ l := by
  intro l
  induction l with
  | nil => intro s p hp; simp [index_pairs] at hp
  | cons v rest ih =>
    intro s p hp
    simp only [index_pairs, List.mem_cons] at hp
    cases hp with
    | inl h =>
      subst h
      exact ⟨by simp, List.mem_cons_self v rest⟩
    | inr h =>
      obtain ⟨h1, h2⟩ := ih (s + 1) p h
      exact ⟨by simp at h1 ⊢; omega, List.mem_cons_of_mem v h2⟩

/-- The copy loop of `Model::from_reuse` succeeds when every value is
concrete and every index is in bounds. -/
lemma model_copy_loop_ok : ∀ (pairs : List (Nat × Option VarAssignment))
    (m : Model),
    (∀ p ∈ pairs, p.2.isSome = true) →
    (∀ p ∈ pairs, p.1 < m.assignment.len) →
    ∃ m2, model_copy_loop pairs m = some (m2, none) := by
  intro pairs
  induction pairs with
  | nil => intro m h1 h2; exact ⟨m, rfl⟩
  | cons p rest ih =>
    intro m h1 h2
    obtain ⟨i, v⟩ := p
    obtain ⟨x, hx⟩ :=
      Option.isSome_iff_exists.mp (h1 (i, v) (List.mem_cons_self _ _))
    have hlt : i < m.assignment.data.length := h2 (i, v) (List.mem_cons_self _ _)
    have hset : m.assignment.set i x = .ok ⟨m.assignment.data.set i x⟩ := by
      simp [BoundedBitmap.set, hlt]
    subst hx
    obtain ⟨m2, hm2⟩ := ih ⟨⟨m.assignment.data.set i x⟩⟩
      (fun p hp => h1 p (List.mem_cons_of_mem _ hp))
      (fun p hp => by
        simpa [BoundedBitmap.len] using h2 p (List.mem_cons_of_mem _ hp))
    refine ⟨m2, ?_⟩
    simp only [model_copy_loop, hset]
    exact hm2

/-- C4: `Model::from_reuse` returns the indeterminate-assignment error
whenever some registered variable of the assignment has no concrete value,
and on every failing call the target model is exactly what it was before
the call. -/
theorem c4_from_reuse_indeterminate_and_frame (m : Model) (a : OldAssignment) :
    ((∃ v ∈ a.values, v = none) →
      m.from_reuse a = some (m, some .IndeterminateAssignment)) ∧
    (∀ r e, m.from_reuse a = some (r, some e) → r = m) := by
  have hiff : a.is_assignment_complete = false ↔ ∃ v ∈ a.values, v = none := by
    simp [OldAssignment.is_assignment_complete, List.all_eq_false,
      Option.not_isSome_iff_eq_none]
  constructor
  · intro hex
    have hc : a.is_assignment_complete = false := hiff.mpr hex
    rw [Model.from_reuse, if_pos hc]
  · intro r e h
    by_cases hc : a.is_assignment_complete = false
    · rw [Model.from_reuse, if_pos hc] at h
      simp only [Option.some.injEq, Prod.mk.injEq] at h
      exact h.1.symm
    · have hc2 : a.is_assignment_complete = true := by
        cases hb : a.is_assignment_complete
        · exact absurd hb hc
        · rfl
      cases hinc : m.assignment.increase_len a.len_variables with
      | error err =>
        have hstep : m.from_reuse a = some (m, some .UsedTooManyVariables) := by
          rw [Model.from_reuse, if_neg hc, hinc]
        rw [hstep] at h
        simp only [Option.some.injEq, Prod.mk.injEq] at h
        exact h.1.symm
      | ok b =>
        have hstep : m.from_reuse a = model_copy_loop (index_pairs 0 a.values) ⟨b⟩ := by
          rw [Model.from_reuse, if_neg hc, hinc]
        rw [hstep] at h
        have hble : a.values.length ≤ b.data.length := by
          unfold BoundedBitmap.increase_len at hinc
          split at hinc
          · cases hinc
          · cases hinc
            simp [OldAssignment.len_variables, List.length_append,
              List.length_replicate]
            omega
        have hall : ∀ p ∈ index_pairs 0 a.values, p.2.isSome = true := by
          intro p hp
          exact List.all_eq_true.mp hc2 p.2 (mem_index_pairs a.values 0 p hp).2
        have hlen : ∀ p ∈ index_pairs 0 a.values, p.1 < BoundedBitmap.len b := by
          intro p hp
          have h1 := (mem_index_pairs a.values 0 p hp).1
          simp only [BoundedBitmap.len]
          omega
        obtain ⟨m2, hm2⟩ := model_copy_loop_ok (index_pairs 0 a.values) ⟨b⟩ hall hlen
        rw [hm2] at h
        simp at h

/-- C4 (witness): building a model from an assignment whose single
registered variable is unassigned fails as indeterminate and leaves the
empty model unchanged. -/
theorem c4_witness :
    (⟨⟨[]⟩⟩ : Model).from_reuse ⟨[none]⟩
        = some (⟨⟨[]⟩⟩, some .IndeterminateAssignment) ∧
      (⟨⟨[]⟩⟩ : Model) = ⟨⟨[]⟩⟩ :=
  ⟨(c4_from_reuse_indeterminate_and_frame ⟨⟨[]⟩⟩ ⟨[none]⟩).1 (by decide),
   (c4_from_reuse_indeterminate_and_frame ⟨⟨[]⟩⟩ ⟨[none]⟩).2 ⟨⟨[]⟩⟩
     .IndeterminateAssignment (by decide)⟩

/-- Two variables with the same index are the same variable. -/
lemma Variable.eq_of_index_eq {v w : Variable} (h : v.index = w.index) : v = w := by
  cases v
  cases w
  cases h
  rfl

/-- Unassigning a list of distinct, currently assigned variables (the fold
inside `reset_to_level`) succeeds, leaves each of them unassigned, and
leaves every other variable's read unchanged. -/
lemma unassign_foldlM : ∀ (ls : List Literal) (va : VariableAssignment),
    (∀ l ∈ ls, ∃ x, va.get l.var = some (some x)) →
    (ls.map (fun l => l.var)).Nodup →
    ∃ va2,
      List.foldlM (fun s l => VariableAssignment.unassign s l.var) va ls
          = some va2 ∧
        (∀ l ∈ ls, va2.get l.var = some none) ∧
        (∀ v : Variable, v ∉ ls.map (fun l => l.var) → va2.get v = va.get v) := by
  intro ls
  induction ls with
  | nil =>
    intro va h hd
    exact ⟨va, rfl, by simp, fun v hv => rfl⟩
  | cons a rest ih =>
    intro va h hd
    obtain ⟨x, hx⟩ := h a (List.mem_cons_self a rest)
    obtain ⟨va1, hu, hget, hframe⟩ := va.unassign_spec a.var x hx
    simp only [List.map_cons, List.nodup_cons] at hd
    obtain ⟨hna, hd2⟩ := hd
    have hrest : ∀ l ∈ rest, ∃ y, va1.get l.var = some (some y) := by
      intro l hl
      obtain ⟨y, hy⟩ := h l (List.mem_cons_of_mem a hl)
      refine ⟨y, ?_⟩
      rw [hframe l.var ?_]
      · exact hy
      · intro hidx
        exact hna (List.mem_map.mpr ⟨l, hl, Variable.eq_of_index_eq hidx⟩)
    obtain ⟨va2, hfold, hall, hfr2⟩ := ih va1 hrest hd2
    refine ⟨va2, ?_, ?_, ?_⟩
    · simp [List.foldlM_cons, hu, hfold]
    · intro l hl
      rcases List.mem_cons.mp hl with h1 | h1
      · subst h1
        rw [hfr2 l.var hna]
        exact hget
      · exact hall l h1
    · intro v hv
      simp only [List.map_cons, List.mem_cons] at hv
      push_neg at hv
      obtain ⟨hv1, hv2⟩ := hv
      rw [hfr2 v hv2]
      refine hframe v ?_
      intro hidx
      exact hv1 (Variable.eq_of_index_eq hidx)

/-- C6: `reset_to_level L`, after assignments were made at levels above `L`,
removes exactly the trail entries above `L`, unassigns exactly their
variables, in reverse order of their assignment (the undo list is the
reversed suffix), leaves every variable outside them with its read
unchanged, sets the current decision level to `L`, and modifies neither
the watch list nor the propagation queue nor the tracked variable count. -/
theorem c6_reset_to_level (a : Assignment) (L : Nat)
    (pre post : List (Literal × Nat))
    (hsplit : a.trail.entries = pre ++ post)
    (hpre : ∀ e ∈ pre, e.2 ≤ L)
    (hpost : ∀ e ∈ post, L < e.2)
    (hassigned : ∀ e ∈ post, ∃ x, a.assignments.get e.1.var = some (some x))
    (hnodup : (post.map (fun e => e.1.var)).Nodup) :
    ∃ a2, a.reset_to_level L = some a2 ∧
      a2.trail.entries = pre ∧
      a2.trail.current_level = L ∧
      (a.trail.pop_to_level L).2 = post.reverse.map Prod.fst ∧
      a2.watchers = a.watchers ∧
      a2.propagation_queue = a.propagation_queue ∧
      a2.num_variables = a.num_variables ∧
      (∀ e ∈ post, a2.assignments.get e.1.var = some none) ∧
      (∀ v : Variable, v ∉ post.map (fun e => e.1.var) →
        a2.assignments.get v = a.assignments.get v) := by
  have hkeep : a.trail.entries.filter (fun e => decide (e.2 ≤ L)) = pre := by
    rw [hsplit, List.filter_append]
    have h1 : pre.filter (fun e => decide (e.2 ≤ L)) = pre :=
      List.filter_eq_self.mpr (fun e he => by simpa using hpre e he)
    have h2 : post.filter (fun e => decide (e.2 ≤ L)) = [] :=
      List.filter_eq_nil_iff.mpr
        (fun e he => by simpa using Nat.not_le.mpr (hpost e he))
    rw [h1, h2, List.append_nil]
  have hrem : a.trail.entries.filter (fun e => decide (L < e.2)) = post := by
    rw [hsplit, List.filter_append]
    have h1 : pre.filter (fun e => decide (L < e.2)) = [] :=
      List.filter_eq_nil_iff.mpr
        (fun e he => by simpa using Nat.not_lt.mpr (hpre e he))
    have h2 : post.filter (fun e => decide (L < e.2)) = post :=
      List.filter_eq_self.mpr (fun e he => by simpa using hpost e he)
    rw [h1, h2, List.nil_append]
  have hpop : a.trail.pop_to_level L =
      (⟨pre, L, a.trail.registered⟩, post.reverse.map Prod.fst) := by
    unfold Trail.pop_to_level
    rw [hkeep, hrem]
  have hmem : ∀ l ∈ post.reverse.map Prod.fst,
      ∃ x, a.assignments.get l.var = some (some x) := by
    intro l hl
    obtain ⟨e, he, rfl⟩ := List.mem_map.mp hl
    exact hassigned e (List.mem_reverse.mp he)
  have hnd : ((post.reverse.map Prod.fst).map (fun l => l.var)).Nodup := by
    rw [List.map_map, List.map_reverse, List.nodup_reverse]
    simpa [Function.comp] using hnodup
  obtain ⟨va2, hfold, hall, hframe⟩ :=
    unassign_foldlM (post.reverse.map Prod.fst) a.assignments hmem hnd
  refine ⟨{ a with trail := ⟨pre, L, a.trail.registered⟩, assignments := va2 },
    ?_, rfl, rfl, ?_, rfl, rfl, rfl, ?_, ?_⟩
  · simp only [Assignment.reset_to_level, hpop]
    rw [hfold]
    rfl
  · rw [hpop]
  · intro e he
    apply hall
    exact List.mem_map.mpr ⟨e, List.mem_reverse.mpr he, rfl⟩
  · intro v hv
    apply hframe
    rw [List.map_map]
    intro hcon
    apply hv
    obtain ⟨e, he, rfl⟩ := List.mem_map.mp hcon
    exact List.mem_map.mpr ⟨e, List.mem_reverse.mp he, rfl⟩

/-- C6 (witness): with variable 0 assigned at level 0 and variable 1
assigned at level 1, resetting to level 0 succeeds, keeps only the level-0
trail entry, and sets the current level back to 0. -/
theorem c6_witness :
    ∃ a2,
      (⟨2, ⟨[(lit0, 0), (lit1, 1)], 1, 2⟩, ⟨⟨[some .True, some .False]⟩⟩,
        ⟨2, []⟩, ⟨[]⟩⟩ : Assignment).reset_to_level 0 = some a2 ∧
      a2.trail.entries = [(lit0, 0)] ∧
      a2.trail.current_level = 0 := by
  obtain ⟨a2, h1, h2, h3, _⟩ :=
    c6_reset_to_level
      ⟨2, ⟨[(lit0, 0), (lit1, 1)], 1, 2⟩, ⟨⟨[some .True, some .False]⟩⟩,
        ⟨2, []⟩, ⟨[]⟩⟩ 0 [(lit0, 0)] [(lit1, 1)] rfl (by decide) (by decide)
      (by
        intro e he
        rw [List.mem_singleton] at he
        subst he
        exact ⟨.False, rfl⟩)
      (by decide)
  exact ⟨a2, h1, h2, h3⟩

end SuperSimpleSat

